import Mathlib

/-!
Shallow embedding of the COVID-19 analysis pipeline
(src/data_loader.py and src/analysis.py).

Conventions of the embedding:
* A pandas DataFrame is a Lean list of records (one structure per table
  shape); the order of the list is the row order of the frame.
* Integer-valued float columns (Deaths, Recovered, Active, the diff
  columns) are `FInt` cells: NaN or an exact integer.  Fraction-valued
  float columns (the rates, pct_change, moving averages) are `FQ` cells:
  NaN, a signed infinity, or an exact fraction `Q` (numerator/denominator).
  This mirrors the IEEE values pandas produces for the operations this
  code performs: division by zero yields NaN when the numerator is zero
  and a signed infinity otherwise; arithmetic with NaN yields NaN;
  `fillna(0)` replaces NaN (and only NaN) by 0.  None of the verified
  claims depends on binary floating-point rounding error, and
  `Series.round(2)` is modelled as rounding to the nearest multiple of
  1/100 (the tie direction is irrelevant to every claim).
* Dates are modelled as naturals: pd.to_datetime parses each distinct
  date header to a distinct date (MalformedDateFailure is out of scope).
* Python dicts keyed by metric name are association lists; a KeyError is
  modelled by `Option` (a missing key makes the operation return `none`).
-/

/-- An exact fraction num/den.  Fractions are not kept reduced; every
operation of the pipeline produces a deterministic representative
(rates always have denominator 100, moving averages denominator 7). -/
structure Q where
  num : ℤ
  den : ℕ
deriving DecidableEq, Repr, Inhabited

namespace Q

/-- The rational value of a fraction. -/
def toRat (q : Q) : ℚ := (q.num : ℚ) / (q.den : ℚ)

/-- An integer as a fraction. -/
def ofInt (n : ℤ) : Q := ⟨n, 1⟩

/-- Comparison by cross-multiplication (valid for positive denominators). -/
def qle (a b : Q) : Prop := a.num * (b.den : ℤ) ≤ b.num * (a.den : ℤ)

instance (a b : Q) : Decidable (Q.qle a b) :=
  inferInstanceAs (Decidable (_ ≤ _))

end Q

/-- The fraction n / c for an integer divisor c ≠ 0 (the sign is moved
into the numerator so that the denominator is a natural). -/
def mkDiv (n c : ℤ) : Q := if 0 ≤ c then ⟨n, c.natAbs⟩ else ⟨-n, c.natAbs⟩

/-- Round-to-nearest of n/d for d > 0 (floor of n/d + 1/2).  Models
float rounding to integer; the tie direction is irrelevant to every
verified claim. -/
def roundQ (n : ℤ) (d : ℕ) : ℤ := (2 * n + d) / (2 * d : ℤ)

/-- An integer-valued float cell: NaN or an exact integer. -/
inductive FInt where
  | nan : FInt
  | val : ℤ → FInt
deriving DecidableEq, Repr, Inhabited

namespace FInt

/-- Subtraction with NaN propagation. -/
def fsub : FInt → FInt → FInt
  | val a, val b => val (a - b)
  | _, _ => nan

/-- fillna(0): replaces NaN by 0. -/
def fillna0 : FInt → FInt
  | nan => val 0
  | x => x

end FInt

/-- A fraction-valued float cell: NaN, a signed infinity, or a fraction. -/
inductive FQ where
  | nan : FQ
  | inf : FQ
  | ninf : FQ
  | val : Q → FQ
deriving DecidableEq, Repr, Inhabited

namespace FQ

/-- Pandas float division of an integer by an integer: x/0 is NaN when
x = 0 and a signed infinity otherwise. -/
def divInt (n c : ℤ) : FQ :=
  if c = 0 then
    if n = 0 then nan else if 0 < n then inf else ninf
  else val (mkDiv n c)

/-- Division of a (possibly NaN) integer cell by an integer. -/
def divFI : FInt → ℤ → FQ
  | FInt.nan, _ => nan
  | FInt.val n, c => divInt n c

/-- Multiplication by the positive constant 100 (percentage scaling). -/
def mul100 : FQ → FQ
  | val q => val ⟨q.num * 100, q.den⟩
  | x => x

/-- Series.round(2): round to the nearest multiple of 1/100.  NaN and the
infinities are unchanged; the finite result always has denominator 100. -/
def round2 : FQ → FQ
  | val q => val ⟨roundQ (q.num * 100) q.den, 100⟩
  | x => x

/-- fillna(0): replaces NaN by 0; infinities are NOT replaced. -/
def fillna0 : FQ → FQ
  | nan => val (Q.ofInt 0)
  | x => x

end FQ

/-! ## Reshaper: load_data and preprocess_data (src/data_loader.py) -/

/-- A row of a raw wide-format table: identifier columns followed by one
cumulative count per date column (cases.length = number of date columns,
as in any rectangular CSV). -/
structure RawRow where
  province : String
  country : String
  lat : Q
  long : Q
  cases : List ℤ
deriving DecidableEq, Repr, Inhabited

/-- A raw wide-format table: the parsed date headers and the rows. -/
structure RawTable where
  dates : List Nat
  rows : List RawRow
deriving DecidableEq, Repr, Inhabited

/-- A row of the long-format table produced by df.melt. -/
structure MeltRow where
  province : String
  country : String
  lat : Q
  long : Q
  date : Nat
  cases : ℤ
deriving DecidableEq, Repr, Inhabited

/-- Melting of the date columns, one column at a time (pandas stacks the
value columns in order; within a column, rows keep their order).  `j` is
the index of the first remaining date column. -/
def meltAux (rows : List RawRow) : List Nat → Nat → List MeltRow
  | [], _ => []
  | d :: ds, j =>
    (rows.map fun r => ⟨r.province, r.country, r.lat, r.long, d, r.cases.getD j 0⟩)
      ++ meltAux rows ds (j + 1)

/-- df.melt(id_vars=[Province/State, Country/Region, Lat, Long],
var_name=Date, value_name=Cases). -/
def melt (t : RawTable) : List MeltRow := meltAux t.rows t.dates 0

/-- Lexicographic code-point order on strings (Python string order),
over the character lists. -/
def strLeB : List Char → List Char → Bool
  | [], _ => true
  | _ :: _, [] => false
  | c :: cs, d :: ds =>
    if c.toNat < d.toNat then true
    else if d.toNat < c.toNat then false
    else strLeB cs ds

/-- The group keys of groupby([Country/Region, Date]) in pandas order:
distinct keys sorted lexicographically. -/
def keyLe (a b : String × Nat) : Prop :=
  (if a.1 = b.1 then decide (a.2 ≤ b.2) else strLeB a.1.data b.1.data) = true

instance (a b : String × Nat) : Decidable (keyLe a b) :=
  inferInstanceAs (Decidable (_ = _))

/-- A row of a processed long-format table (the output of
preprocess_data): Country/Region, Date, Cases, Lat, Long. -/
structure PRow where
  country : String
  date : Nat
  cases : ℤ
  lat : Q
  long : Q
deriving DecidableEq, Repr, Inhabited

/-- The rows of one groupby([Country/Region, Date]) group, in melted
(hence original) row order. -/
def groupRows (melted : List MeltRow) (k : String × Nat) : List MeltRow :=
  melted.filter fun m => m.country = k.1 ∧ m.date = k.2

/-- The aggregated output row of one group: Cases summed, Lat and Long
taken from the first row of the group. -/
def buildPRow (melted : List MeltRow) (k : String × Nat) : PRow :=
  { country := k.1
    date := k.2
    cases := ((groupRows melted k).map (fun m => m.cases)).sum
    lat := ((groupRows melted k).map (fun m => m.lat)).headD (Q.ofInt 0)
    long := ((groupRows melted k).map (fun m => m.long)).headD (Q.ofInt 0) }

/-- preprocess_data for one metric table: melt, parse dates (the date
headers are already parsed dates here), group by (Country/Region, Date)
and aggregate Cases by sum, Lat and Long by first-in-group. -/
def preprocess (t : RawTable) : List PRow :=
  let melted := melt t
  let keys := List.insertionSort keyLe
    ((melted.map fun m => (m.country, m.date)).dedup)
  keys.map (buildPRow melted)

/-- preprocess_data(data): processes each metric present in the input
dict, keeping the same keys (writing the processed CSVs is a side effect
with no bearing on the returned value). -/
def preprocess_data (data : List (String × RawTable)) : List (String × List PRow) :=
  data.map fun p => (p.1, preprocess p.2)

/-- load_data(data_dir): for each of the three metrics, the files of the
directory whose name starts with "{metric}_time_series" are looked up;
the first one found is loaded, and a metric with no file is omitted from
the returned dict (only a message is printed). -/
def load_data (dir : List (String × RawTable)) : List (String × RawTable) :=
  ["confirmed", "deaths", "recovered"].filterMap fun m =>
    match dir.find? (fun f => (m ++ "_time_series").data.isPrefixOf f.1.data) with
    | some f => some (m, f.2)
    | none => none

/-! ## Merger: get_merged_data (src/data_loader.py) -/

/-- A row of the merged table returned by get_merged_data.  `confirmed`
comes from the base (left) table so it is always a plain integer; the
joined and derived columns are float cells. -/
structure MRow where
  country : String
  date : Nat
  confirmed : ℤ
  deaths : FInt
  recovered : FInt
  active : FInt
  death_rate : FQ
  recovery_rate : FQ
  lat : Q
  long : Q
deriving DecidableEq, Repr, Inhabited

/-- The Cases values of the rows of `t` matching join key (c, d), wrapped
in `some`; a single `none` when there is no match.  This is how a pandas
left merge pairs one left row with each matching right row, or with NaN
when there is no matching right row. -/
def leftJoinVals (t : List PRow) (c : String) (d : Nat) : List (Option ℤ) :=
  if (t.filter fun r => r.country = c ∧ r.date = d) = [] then [none]
  else ((t.filter fun r => r.country = c ∧ r.date = d).map (·.cases)).map some

/-- An unmatched join slot is NaN. -/
def optFI : Option ℤ → FInt
  | none => FInt.nan
  | some v => FInt.val v

/-- One output row of the merge, before the NaN fill: Active and the two
rates are computed while unmatched Deaths/Recovered slots still hold NaN
(data_loader.py lines 102-108). -/
def buildRow (c : PRow) (dO rO : Option ℤ) : MRow :=
  let dV := optFI dO
  let rV := optFI rO
  { country := c.country
    date := c.date
    confirmed := c.cases
    deaths := dV
    recovered := rV
    active := FInt.fsub (FInt.fsub (FInt.val c.cases) dV) rV
    death_rate := FQ.round2 (FQ.mul100 (FQ.divFI dV c.cases))
    recovery_rate := FQ.round2 (FQ.mul100 (FQ.divFI rV c.cases))
    lat := c.lat
    long := c.long }

/-- merged.fillna(0, inplace=True), applied to every float column. -/
def fillRow (m : MRow) : MRow :=
  { m with
    deaths := m.deaths.fillna0
    recovered := m.recovered.fillna0
    active := m.active.fillna0
    death_rate := m.death_rate.fillna0
    recovery_rate := m.recovery_rate.fillna0 }

/-- The two chained left merges of get_merged_data followed by the
derived columns and the NaN fill.  The base table is `confirmed`; each
confirmed row is paired with every matching deaths row (or NaN), then
with every matching recovered row (or NaN), preserving left order. -/
def mergeTables (confirmed deaths recovered : List PRow) : List MRow :=
  (confirmed.flatMap fun c =>
    (leftJoinVals deaths c.country c.date).flatMap fun dO =>
      (leftJoinVals recovered c.country c.date).map fun rO =>
        buildRow c dO rO).map fillRow

/-- Lookup in a Python dict modelled as an association list. -/
def dictGet {A : Type} (l : List (String × A)) (k : String) : Option A :=
  (l.find? fun p => p.1 = k).map (·.2)

/-- get_merged_data(processed_data): subscripting processed_data with the
three metric names raises KeyError (modelled as `none`) when any of the
three keys is absent; otherwise the merged table is returned (writing
the merged CSV is a side effect with no bearing on the value). -/
def get_merged_data (pd : List (String × List PRow)) : Option (List MRow) :=
  match dictGet pd "confirmed", dictGet pd "deaths", dictGet pd "recovered" with
  | some c, some d, some r => some (mergeTables c d r)
  | _, _, _ => none

/-! ## Analyzer: CovidAnalysis (src/analysis.py) -/

/-- self.data["Date"].max(): the greatest date of the dataset (the claims
using it assume a nonempty dataset, as .max() of an empty column is NaN). -/
def maxDate (data : List MRow) : Nat := (data.map (·.date)).foldl max 0

/-- Descending order on Confirmed, as used by nlargest: a stable sort by
this relation followed by take n reproduces nlargest(n, "Confirmed")
with its keep=first tie policy. -/
def confGe (a b : MRow) : Prop := b.confirmed ≤ a.confirmed

instance (a b : MRow) : Decidable (confGe a b) :=
  inferInstanceAs (Decidable (_ ≤ _))

/-- The column selection [Country/Region, Confirmed, Deaths, Recovered,
Death_Rate] applied to the nlargest result. -/
structure TopRow where
  country : String
  confirmed : ℤ
  deaths : FInt
  recovered : FInt
  death_rate : FQ
deriving DecidableEq, Repr, Inhabited

/-- get_top_countries_by_cases(n, latest_date): restrict to the given
date (default: the maximum date present), take the n rows with greatest
Confirmed, and select the report columns. -/
def get_top_countries_by_cases (data : List MRow) (n : Nat)
    (latest_date : Option Nat) : List TopRow :=
  let d := latest_date.getD (maxDate data)
  let latest := data.filter fun m => m.date = d
  ((latest.insertionSort confGe).take n).map fun m =>
    ⟨m.country, m.confirmed, m.deaths, m.recovered, m.death_rate⟩

/-- Ascending order on Date, as used by sort_values("Date"). -/
def dateLe (a b : MRow) : Prop := a.date ≤ b.date

instance (a b : MRow) : Decidable (dateLe a b) :=
  inferInstanceAs (Decidable (_ ≤ _))

/-- get_country_time_series(country_name): the rows of the given country,
sorted ascending by Date. -/
def get_country_time_series (data : List MRow) (country_name : String) :
    List MRow :=
  (data.filter fun m => m.country = country_name).insertionSort dateLe

/-- The columns of the input series that calculate_growth_rates reads
(Date, Confirmed, Deaths; the Deaths cell of a merged row is numeric
after the NaN fill). -/
structure TRow where
  date : Nat
  confirmed : ℤ
  deaths : ℤ
deriving DecidableEq, Repr, Inhabited

/-- Ascending order on Date for input series rows. -/
def tdateLe (a b : TRow) : Prop := a.date ≤ b.date

instance (a b : TRow) : Decidable (tdateLe a b) :=
  inferInstanceAs (Decidable (_ ≤ _))

/-- A row of the augmented series returned by calculate_growth_rates. -/
structure GRow where
  date : Nat
  confirmed : ℤ
  deaths : ℤ
  daily_confirmed : FInt
  daily_deaths : FInt
  confirmed_growth_rate : FQ
  death_growth_rate : FQ
  confirmed_ma7 : FQ
  deaths_ma7 : FQ
deriving DecidableEq, Repr, Inhabited

/-- Series.diff() at position i: NaN at position 0, x[i] - x[i-1] after. -/
def diffAt (xs : List ℤ) (i : Nat) : FInt :=
  if i = 0 then FInt.nan
  else FInt.val (xs.getD i 0 - xs.getD (i - 1) 0)

/-- (Series.pct_change() * 100).round(2) at position i: NaN at position
0; afterwards (x[i] - x[i-1]) / x[i-1], scaled and rounded, with the
pandas division-by-zero convention when x[i-1] = 0. -/
def pctAt (xs : List ℤ) (i : Nat) : FQ :=
  if i = 0 then FQ.nan
  else FQ.round2 (FQ.mul100 (FQ.divInt (xs.getD i 0 - xs.getD (i - 1) 0)
    (xs.getD (i - 1) 0)))

/-- Series.rolling(window=7).mean() over the diff column, at position i:
the window is positions i-6..i; with the default min_periods = 7 the
result is NaN unless the window holds 7 positions all of whose diff
values are non-NaN (the diff value at position 0 is always NaN, so the
first 7 positions are NaN). -/
def ma7At (xs : List ℤ) (i : Nat) : FQ :=
  if i < 6 then FQ.nan
  else
    let window := (List.range 7).map fun k => diffAt xs (i - 6 + k)
    if window.all (fun c => c ≠ FInt.nan) then
      FQ.val ⟨(window.filterMap fun c =>
        match c with
        | FInt.val z => some z
        | FInt.nan => none).sum, 7⟩
    else FQ.nan

/-- The six derived columns of calculate_growth_rates, computed over an
already-sorted series. -/
def calcGrowthSorted (s : List TRow) : List GRow :=
  let conf := s.map (·.confirmed)
  let dth := s.map (·.deaths)
  (List.range s.length).map fun i =>
    { date := (s.getD i default).date
      confirmed := conf.getD i 0
      deaths := dth.getD i 0
      daily_confirmed := diffAt conf i
      daily_deaths := diffAt dth i
      confirmed_growth_rate := pctAt conf i
      death_growth_rate := pctAt dth i
      confirmed_ma7 := ma7At conf i
      deaths_ma7 := ma7At dth i }

/-- calculate_growth_rates(country_data) as a value transform:
sort_values("Date") followed by the six derived-column assignments. -/
def calculate_growth_rates (country_data : List TRow) : List GRow :=
  calcGrowthSorted (country_data.insertionSort tdateLe)

/-- A dataframe object held in the Python heap: the caller passes a plain
series; the derived view holds the appended columns. -/
inductive DFrame where
  | base : List TRow → DFrame
  | derived : List GRow → DFrame
deriving DecidableEq, Repr, Inhabited

/-- The core columns of a heap object, as read by calculate_growth_rates. -/
def DFrame.coreRows : DFrame → List TRow
  | DFrame.base rs => rs
  | DFrame.derived rs => rs.map fun g => ⟨g.date, g.confirmed, g.deaths⟩

/-- A heap of dataframe objects; a reference is an index. -/
abbrev Store := List DFrame

/-- calculate_growth_rates as it acts on the heap: sort_values (without
inplace=True) allocates a fresh object and the local name is rebound to
it; the six column assignments then mutate only that fresh object.  The
returned reference points at the fresh derived frame. -/
def calculate_growth_rates_st (s : Store) (r : Nat) : Store × Nat :=
  let df := (List.getD s r (DFrame.base [])).coreRows
  let sorted := df.insertionSort tdateLe
  let r1 := List.length s
  let s1 := s ++ [DFrame.base sorted]
  let s2 := List.set s1 r1 (DFrame.derived (calcGrowthSorted sorted))
  (s2, r1)

/-- Whether a (Country/Region, Date) join key has at least one matching
row in a processed table. -/
def hasKey (t : List PRow) (c : String) (d : Nat) : Bool :=
  t.any fun r => r.country = c ∧ r.date = d

/-! ## Example data used by concrete theorems and witnesses -/

/-- A merged row with the given country, date and confirmed count and
neutral remaining fields (for Analyzer examples, whose queries only read
the fields shown). -/
def mRowOf (c : String) (dt : Nat) (cf : ℤ) : MRow :=
  ⟨c, dt, cf, FInt.val 0, FInt.val 0, FInt.val cf, FQ.val (Q.ofInt 0),
    FQ.val (Q.ofInt 0), Q.ofInt 0, Q.ofInt 0⟩

/-- The report row produced from `mRowOf`. -/
def topOf (c : String) (cf : ℤ) : TopRow :=
  ⟨c, cf, FInt.val 0, FInt.val 0, FQ.val (Q.ofInt 0)⟩

/-- Example dataset for the Analyzer: six countries at the latest date 2,
one extra row at the earlier date 1. -/
def exTop : List MRow :=
  [mRowOf "A" 2 1000, mRowOf "B" 2 500, mRowOf "C" 2 2000, mRowOf "D" 2 300,
   mRowOf "E" 2 100, mRowOf "F" 2 50, mRowOf "A" 1 900]

/-- Example sorted eight-day series with cumulative confirmed counts
0,1,3,6,10,15,21,28 (daily deltas 1..7). -/
def exSeries : List TRow :=
  [⟨0, 0, 0⟩, ⟨1, 1, 0⟩, ⟨2, 3, 0⟩, ⟨3, 6, 0⟩, ⟨4, 10, 0⟩, ⟨5, 15, 0⟩,
   ⟨6, 21, 0⟩, ⟨7, 28, 0⟩]

/-- Example one-metric raw table. -/
def exRawOne : RawTable := ⟨[1], [⟨"", "US", Q.ofInt 0, Q.ofInt 0, [3]⟩]⟩

/-- Example data directory holding confirmed and recovered files but no
deaths file. -/
def exDirNoDeaths : List (String × RawTable) :=
  [("confirmed_time_series_a.csv", exRawOne),
   ("recovered_time_series_b.csv", exRawOne)]

/-! ## Helper lemmas -/

theorem leftJoinVals_ne_nil (t : List PRow) (c : String) (d : Nat) :
    leftJoinVals t c d ≠ [] := by
  unfold leftJoinVals
  by_cases h : (t.filter fun r => r.country = c ∧ r.date = d) = []
  · rw [if_pos h]; simp
  · rw [if_neg h]
    simp only [ne_eq, List.map_eq_nil_iff]
    exact h

theorem exists_mem_leftJoinVals (t : List PRow) (c : String) (d : Nat) :
    ∃ v, v ∈ leftJoinVals t c d :=
  List.exists_mem_of_ne_nil _ (leftJoinVals_ne_nil t c d)

theorem mem_leftJoinVals_some_iff (t : List PRow) (c : String) (d : Nat)
    (dO : Option ℤ) (h : dO ∈ leftJoinVals t c d) :
    (∃ v, dO = some v) ↔ hasKey t c d = true := by
  have hk : hasKey t c d = true ↔
      ¬ (t.filter fun r => r.country = c ∧ r.date = d) = [] := by
    simp [hasKey, List.filter_eq_nil_iff, List.any_eq_true]
  unfold leftJoinVals at h
  by_cases hE : (t.filter fun r => r.country = c ∧ r.date = d) = []
  · rw [if_pos hE] at h
    simp only [List.mem_singleton] at h
    subst h
    constructor
    · rintro ⟨v, hv⟩; cases hv
    · intro hkk; exact absurd hE (hk.mp hkk)
  · rw [if_neg hE] at h
    simp only [List.mem_map] at h
    obtain ⟨v, _, hv⟩ := h
    simp only [hk, hE, not_false_iff, iff_true]
    exact ⟨v, hv.symm⟩

theorem mem_mergeTables (cT dT rT : List PRow) (m : MRow) :
    m ∈ mergeTables cT dT rT ↔
      ∃ c ∈ cT, ∃ dO ∈ leftJoinVals dT c.country c.date,
        ∃ rO ∈ leftJoinVals rT c.country c.date,
          m = fillRow (buildRow c dO rO) := by
  simp only [mergeTables, List.mem_map, List.mem_flatMap]
  constructor
  · rintro ⟨m0, ⟨c, hc, dO, hdO, rO, hrO, rfl⟩, rfl⟩
    exact ⟨c, hc, dO, hdO, rO, hrO, rfl⟩
  · rintro ⟨c, hc, dO, hdO, rO, hrO, rfl⟩
    exact ⟨buildRow c dO rO, ⟨c, hc, dO, hdO, rO, hrO, rfl⟩, rfl⟩

instance : IsTotal MRow dateLe := ⟨fun a b => Nat.le_total a.date b.date⟩

instance : IsTrans MRow dateLe := ⟨fun _ _ _ h1 h2 => Nat.le_trans h1 h2⟩

theorem getD_range_map {α : Type} (n : Nat) (f : Nat → α) (i : Nat) (d : α)
    (h : i < n) : ((List.range n).map f).getD i d = f i := by
  rw [List.getD_eq_getElem?_getD, List.getElem?_map, List.getElem?_range h]
  rfl

theorem getD_map_getD {α β : Type} [Inhabited α] (l : List α) (g : α → β)
    (i : Nat) (z : β) (h : i < l.length) :
    (l.map g).getD i z = g (l.getD i default) := by
  rw [List.getD_eq_getElem?_getD, List.getElem?_map, List.getD_eq_getElem?_getD,
    List.getElem?_eq_getElem h]
  rfl

theorem diffAt_zero (xs : List ℤ) : diffAt xs 0 = FInt.nan := rfl

theorem diffAt_of_pos (xs : List ℤ) (i : Nat) (h : 1 ≤ i) :
    diffAt xs i = FInt.val (xs.getD i 0 - xs.getD (i - 1) 0) := by
  unfold diffAt
  rw [if_neg (by omega)]

theorem ma7At_of_le_six (xs : List ℤ) (i : Nat) (h : i ≤ 6) :
    ma7At xs i = FQ.nan := by
  unfold ma7At
  by_cases h6 : i < 6
  · rw [if_pos h6]
  · have hi : i = 6 := by omega
    subst hi
    rw [if_neg (by omega)]
    have hall : ((List.range 7).map fun k => diffAt xs (6 - 6 + k)).all
        (fun c => c ≠ FInt.nan) = false := by
      have hmem : diffAt xs 0 ∈ (List.range 7).map fun k => diffAt xs (6 - 6 + k) := by
        refine List.mem_map.mpr ⟨0, ?_, rfl⟩
        simp
      rcases hB : ((List.range 7).map fun k => diffAt xs (6 - 6 + k)).all
          (fun c => c ≠ FInt.nan) with _ | _
      · rfl
      · have := List.all_eq_true.mp hB _ hmem
        rw [diffAt_zero] at this
        simp at this
    rw [if_neg (by rw [hall]; exact Bool.false_ne_true)]

theorem ma7At_of_seven_le (xs : List ℤ) (i : Nat) (h : 7 ≤ i) :
    ma7At xs i = FQ.val
      ⟨((List.range 7).map fun k =>
        xs.getD (i - 6 + k) 0 - xs.getD (i - 7 + k) 0).sum, 7⟩ := by
  unfold ma7At
  rw [if_neg (by omega)]
  have hwin : ((List.range 7).map fun k => diffAt xs (i - 6 + k)) =
      (List.range 7).map fun k =>
        FInt.val (xs.getD (i - 6 + k) 0 - xs.getD (i - 7 + k) 0) := by
    refine List.map_congr_left fun k _ => ?_
    rw [diffAt_of_pos xs (i - 6 + k) (by omega)]
    have he : i - 6 + k - 1 = i - 7 + k := by omega
    rw [he]
  rw [hwin]
  have hall : ((List.range 7).map fun k =>
      FInt.val (xs.getD (i - 6 + k) 0 - xs.getD (i - 7 + k) 0)).all
      (fun c => c ≠ FInt.nan) = true := by
    refine List.all_eq_true.mpr fun x hx => ?_
    obtain ⟨k, _, rfl⟩ := List.mem_map.mp hx
    simp
  rw [if_pos hall]
  rw [List.filterMap_map]
  have hcomp : ((fun c => match c with
      | FInt.val z => some z
      | FInt.nan => none) ∘ fun k =>
        FInt.val (xs.getD (i - 6 + k) 0 - xs.getD (i - 7 + k) 0)) =
      fun k => some (xs.getD (i - 6 + k) 0 - xs.getD (i - 7 + k) 0) := rfl
  rw [hcomp]
  rw [show (fun k => some (xs.getD (i - 6 + k) 0 - xs.getD (i - 7 + k) 0)) =
    some ∘ (fun k => xs.getD (i - 6 + k) 0 - xs.getD (i - 7 + k) 0) from rfl]
  rw [List.filterMap_eq_map]

theorem find?_eq_head?_filter {α : Type} (l : List α) (p : α → Bool) :
    l.find? p = (l.filter p).head? := by
  induction l with
  | nil => rfl
  | cons a l ih =>
    cases h : p a
    · rw [List.find?_cons_of_neg _ (by simp [h]),
        List.filter_cons_of_neg (by simp [h])]
      exact ih
    · rw [List.find?_cons_of_pos _ (by simp [h]),
        List.filter_cons_of_pos (by simp [h])]
      rfl

theorem getD_mem_of_lt (l : List Nat) (i : Nat) (h : i < l.length) :
    l.getD i 0 ∈ l := by
  rw [List.getD_eq_getElem?_getD, List.getElem?_eq_getElem h]
  exact List.getElem_mem h

theorem sum_map_filter_add {α : Type} (l : List α) (p : α → Bool)
    (val : α → ℤ) :
    ((l.filter p).map val).sum + ((l.filter fun x => !(p x)).map val).sum =
      (l.map val).sum := by
  induction l with
  | nil => simp
  | cons a l ih =>
    cases h : p a
    · rw [List.filter_cons_of_neg (by simp [h]),
        List.filter_cons_of_pos (by simp [h])]
      simp only [List.map_cons, List.sum_cons]
      omega
    · rw [List.filter_cons_of_pos (by simp [h]),
        List.filter_cons_of_neg (by simp [h])]
      simp only [List.map_cons, List.sum_cons]
      omega

theorem sum_fiberwise {α κ : Type} [DecidableEq κ] (key : α → κ)
    (val : α → ℤ) :
    ∀ (ks : List κ) (l : List α), ks.Nodup → (∀ x ∈ l, key x ∈ ks) →
      (ks.map fun k => ((l.filter fun x => key x = k).map val).sum).sum =
        (l.map val).sum := by
  intro ks
  induction ks with
  | nil =>
    intro l _ hcov
    cases l with
    | nil => simp
    | cons a l => exact absurd (hcov a (List.mem_cons_self a l)) (by simp)
  | cons k ks ih =>
    intro l hnd hcov
    have hk_not : k ∉ ks := (List.nodup_cons.mp hnd).1
    have hnd' : ks.Nodup := (List.nodup_cons.mp hnd).2
    have htail : ∀ k2 ∈ ks, (l.filter fun x => key x = k2) =
        ((l.filter fun x => !(decide (key x = k))).filter
          fun x => key x = k2) := by
      intro k2 hk2
      rw [List.filter_filter]
      refine (List.filter_congr fun x _ => ?_).symm
      by_cases hx : key x = k2
      · have hxk : ¬(k2 = k) := fun hc => hk_not (hc ▸ hk2)
        simp [hx, hxk]
      · simp [hx]
    rw [List.map_cons, List.sum_cons]
    have hmapc : (ks.map fun k2 => ((l.filter fun x => key x = k2).map val).sum) =
        ks.map fun k2 =>
          (((l.filter fun x => !(decide (key x = k))).filter
            fun x => key x = k2).map val).sum := by
      refine List.map_congr_left fun k2 hk2 => ?_
      rw [htail k2 hk2]
    rw [hmapc, ih (l.filter fun x => !(decide (key x = k))) hnd' ?_]
    · exact sum_map_filter_add l (fun x => decide (key x = k)) val
    · intro x hx
      have hx2 := List.mem_filter.mp hx
      have hne : ¬(key x = k) := by simpa using hx2.2
      have := hcov x hx2.1
      rcases List.mem_cons.mp this with hc | hc
      · exact absurd hc hne
      · exact hc

theorem mem_meltAux_date (rows : List RawRow) :
    ∀ (ds : List Nat) (j0 : Nat) (m : MeltRow),
      m ∈ meltAux rows ds j0 → m.date ∈ ds := by
  intro ds
  induction ds with
  | nil => intro j0 m h; cases h
  | cons d ds ih =>
    intro j0 m h
    rcases List.mem_append.mp h with h1 | h1
    · obtain ⟨r, _, rfl⟩ := List.mem_map.mp h1
      exact List.mem_cons_self d ds
    · exact List.mem_cons_of_mem d (ih (j0 + 1) m h1)

theorem meltAux_filter_date (rows : List RawRow) :
    ∀ (ds : List Nat) (j0 i : Nat), ds.Nodup → i < ds.length →
      ((meltAux rows ds j0).filter fun m => m.date = ds.getD i 0) =
        rows.map fun r => ⟨r.province, r.country, r.lat, r.long,
          ds.getD i 0, r.cases.getD (j0 + i) 0⟩ := by
  intro ds
  induction ds with
  | nil => intro j0 i _ h; simp at h
  | cons d ds ih =>
    intro j0 i hnd hi
    have hd_not : d ∉ ds := (List.nodup_cons.mp hnd).1
    have hnd' : ds.Nodup := (List.nodup_cons.mp hnd).2
    cases i with
    | zero =>
      show ((rows.map _) ++ meltAux rows ds (j0 + 1)).filter _ = _
      rw [List.filter_append]
      have h1 : ((rows.map fun r => (⟨r.province, r.country, r.lat, r.long, d,
          r.cases.getD j0 0⟩ : MeltRow)).filter
            fun m => m.date = (d :: ds).getD 0 0) =
          rows.map fun r => ⟨r.province, r.country, r.lat, r.long, d,
            r.cases.getD j0 0⟩ := by
        refine List.filter_eq_self.mpr fun m hm => ?_
        obtain ⟨r, _, rfl⟩ := List.mem_map.mp hm
        simp [List.getD_cons_zero]
      have h2 : ((meltAux rows ds (j0 + 1)).filter
          fun m => m.date = (d :: ds).getD 0 0) = [] := by
        refine List.filter_eq_nil_iff.mpr fun m hm => ?_
        have := mem_meltAux_date rows ds (j0 + 1) m hm
        simp only [List.getD_cons_zero, decide_eq_true_eq]
        intro hc
        exact hd_not (hc ▸ this)
      rw [h1, h2, List.append_nil]
      simp [List.getD_cons_zero]
    | succ i =>
      have hi' : i < ds.length := by simpa using hi
      show ((rows.map _) ++ meltAux rows ds (j0 + 1)).filter _ = _
      rw [List.filter_append]
      have hmem : ds.getD i 0 ∈ ds := getD_mem_of_lt ds i hi'
      have hne : d ≠ ds.getD i 0 := fun hc => hd_not (hc ▸ hmem)
      have h1 : ((rows.map fun r => (⟨r.province, r.country, r.lat, r.long, d,
          r.cases.getD j0 0⟩ : MeltRow)).filter
            fun m => m.date = (d :: ds).getD (i + 1) 0) = [] := by
        refine List.filter_eq_nil_iff.mpr fun m hm => ?_
        obtain ⟨r, _, rfl⟩ := List.mem_map.mp hm
        simp only [List.getD_cons_succ, decide_eq_true_eq]
        exact hne
      rw [h1, List.nil_append]
      have h2 := ih (j0 + 1) i hnd' hi'
      simp only [List.getD_cons_succ]
      rw [h2]
      simp only [show j0 + 1 + i = j0 + (i + 1) from by omega]

theorem conservation_core (melted : List MeltRow) (keys : List (String × Nat))
    (hperm : keys.Perm ((melted.map fun m => (m.country, m.date)).dedup))
    (D : Nat) :
    (((keys.map (buildPRow melted)).filter fun p => p.date = D).map
      (fun p => p.cases)).sum =
      ((melted.filter fun m => m.date = D).map (fun m => m.cases)).sum := by
  rw [List.filter_map]
  have hq : (keys.filter ((fun p => decide (p.date = D)) ∘ buildPRow melted)) =
      keys.filter (fun k => decide (k.2 = D)) :=
    List.filter_congr fun k _ => rfl
  rw [hq, List.map_map]
  have hg : ((fun p : PRow => p.cases) ∘ buildPRow melted) =
      fun k => ((groupRows melted k).map (fun m => m.cases)).sum := rfl
  rw [hg]
  rw [(((hperm.filter fun k => decide (k.2 = D))).map fun k =>
    ((groupRows melted k).map (fun m => m.cases)).sum).sum_eq]
  have hD : ∀ k ∈ (((melted.map fun m => (m.country, m.date)).dedup).filter
      fun k => decide (k.2 = D)),
      ((groupRows melted k).map (fun m => m.cases)).sum =
      (((melted.filter fun m => m.date = D).filter
        fun m => (m.country, m.date) = k).map (fun m => m.cases)).sum := by
    intro k hk
    have hk2 : k.2 = D := by simpa using (List.mem_filter.mp hk).2
    have hAB : groupRows melted k = ((melted.filter fun m => m.date = D).filter
        fun m => (m.country, m.date) = k) := by
      rw [List.filter_filter]
      unfold groupRows
      refine List.filter_congr fun m _ => ?_
      subst hk2
      by_cases h1 : m.country = k.1 <;> by_cases h2 : m.date = k.2 <;>
        simp [Prod.ext_iff, h1, h2]
    rw [hAB]
  rw [List.map_congr_left hD]
  refine sum_fiberwise (fun m : MeltRow => (m.country, m.date))
    (fun m : MeltRow => m.cases) _ _
    ((List.nodup_dedup _).filter _) ?_
  intro x hx
  have hx2 := List.mem_filter.mp hx
  refine List.mem_filter.mpr
    ⟨List.mem_dedup.mpr (List.mem_map.mpr ⟨x, hx2.1, rfl⟩), ?_⟩
  simpa using hx2.2

theorem preprocess_coords (t : RawTable) (hnd : t.dates.Nodup) :
    ∀ p ∈ preprocess t, ∃ r,
      t.rows.find? (fun row => row.country = p.country) = some r
      ∧ p.lat = r.lat ∧ p.long = r.long := by
  intro p hp
  have hp2 : p ∈ (List.insertionSort keyLe
      (((melt t).map fun m => (m.country, m.date)).dedup)).map
      (buildPRow (melt t)) := hp
  obtain ⟨k, hk, rfl⟩ := List.mem_map.mp hp2
  have hkd : k ∈ ((melt t).map fun m => (m.country, m.date)).dedup := by
    simpa using hk
  obtain ⟨m0, hm0, hkey⟩ := List.mem_map.mp (List.mem_dedup.mp hkd)
  have hk1 : k.1 = m0.country := by rw [← hkey]
  have hk2 : k.2 = m0.date := by rw [← hkey]
  have hdate : m0.date ∈ t.dates := mem_meltAux_date t.rows t.dates 0 m0 hm0
  obtain ⟨i, hi, hdi⟩ := List.mem_iff_getElem.mp hdate
  have hgetD : t.dates.getD i 0 = m0.date := by
    rw [List.getD_eq_getElem?_getD, List.getElem?_eq_getElem hi]
    simpa using hdi
  have hgrp : groupRows (melt t) k =
      (t.rows.filter fun r => r.country = k.1).map
        (fun r => (⟨r.province, r.country, r.lat, r.long, t.dates.getD i 0,
          r.cases.getD (0 + i) 0⟩ : MeltRow)) := by
    unfold groupRows
    calc (melt t).filter (fun m => m.country = k.1 ∧ m.date = k.2)
        = ((melt t).filter fun m => m.date = k.2).filter
            (fun m => m.country = k.1) := by
          rw [List.filter_filter]
          refine List.filter_congr fun m _ => ?_
          by_cases h1 : m.country = k.1 <;> by_cases h2 : m.date = k.2 <;>
            simp [h1, h2]
      _ = ((melt t).filter fun m => m.date = t.dates.getD i 0).filter
            (fun m => m.country = k.1) := by
          rw [hk2, ← hgetD]
      _ = ((t.rows.map fun r => (⟨r.province, r.country, r.lat, r.long,
            t.dates.getD i 0, r.cases.getD (0 + i) 0⟩ : MeltRow)).filter
            (fun m => m.country = k.1)) := by
          rw [show melt t = meltAux t.rows t.dates 0 from rfl,
            meltAux_filter_date t.rows t.dates 0 i hnd hi]
      _ = (t.rows.filter fun r => r.country = k.1).map
            (fun r => (⟨r.province, r.country, r.lat, r.long,
              t.dates.getD i 0, r.cases.getD (0 + i) 0⟩ : MeltRow)) := by
          rw [List.filter_map]
          congr 1
  have hm0g : m0 ∈ groupRows (melt t) k := by
    unfold groupRows
    refine List.mem_filter.mpr ⟨hm0, ?_⟩
    simp [hk1, hk2]
  rcases hrows : t.rows.filter (fun r => r.country = k.1) with _ | ⟨r0, rest⟩
  · rw [hgrp, hrows] at hm0g
    simp at hm0g
  · refine ⟨r0, ?_, ?_, ?_⟩
    · show t.rows.find? (fun row => row.country = k.1) = some r0
      rw [find?_eq_head?_filter, hrows]
      rfl
    · show ((groupRows (melt t) k).map (fun m => m.lat)).headD (Q.ofInt 0) =
        r0.lat
      rw [hgrp, hrows, List.map_map]
      rfl
    · show ((groupRows (melt t) k).map (fun m => m.long)).headD (Q.ofInt 0) =
        r0.long
      rw [hgrp, hrows, List.map_map]
      rfl

theorem roundQ_eq_round (n : ℤ) (d : ℕ) (hd : 0 < d) :
    roundQ n d = round ((n : ℚ) / (d : ℚ)) := by
  rw [round_eq]
  have hdq : ((d : ℕ) : ℚ) ≠ 0 := by exact_mod_cast hd.ne.symm
  have harg : (n : ℚ) / (d : ℚ) + 1 / 2 =
      (((2 * n + d : ℤ) : ℚ)) / (((2 * d : ℕ) : ℚ)) := by
    push_cast
    field_simp
    ring
  rw [harg, Rat.floor_intCast_div_natCast]
  unfold roundQ
  push_cast
  ring_nf

theorem round_nonneg_q {y : ℚ} (hy : 0 ≤ y) : 0 ≤ round y := by
  rw [round_eq]
  refine Int.le_floor.mpr ?_
  push_cast
  linarith

theorem round_le_q {y : ℚ} (M : ℤ) (hy : y ≤ M) : round y ≤ M := by
  rw [round_eq]
  have h : ⌊y + 1 / 2⌋ < M + 1 := by
    refine Int.floor_lt.mpr ?_
    push_cast
    linarith
  omega

theorem rate_spec (d c : ℤ) (h0 : 0 ≤ d) (h1 : d ≤ c) (hc : 0 < c) :
    FQ.fillna0 (FQ.round2 (FQ.mul100 (FQ.divInt d c))) =
      FQ.val ⟨round ((d : ℚ) / (c : ℚ) * 100 * 100), 100⟩
    ∧ 0 ≤ round ((d : ℚ) / (c : ℚ) * 100 * 100)
    ∧ round ((d : ℚ) / (c : ℚ) * 100 * 100) ≤ 10000 := by
  have hcq : (0 : ℚ) < (c : ℚ) := by exact_mod_cast hc
  have hy0 : (0 : ℚ) ≤ (d : ℚ) / (c : ℚ) * 100 * 100 := by
    have := div_nonneg (by exact_mod_cast h0 : (0 : ℚ) ≤ (d : ℚ)) hcq.le
    linarith
  have hy1 : (d : ℚ) / (c : ℚ) * 100 * 100 ≤ (10000 : ℤ) := by
    have hdc : (d : ℚ) / (c : ℚ) ≤ 1 :=
      (div_le_one hcq).mpr (by exact_mod_cast h1)
    push_cast
    linarith
  refine ⟨?_, round_nonneg_q hy0, round_le_q 10000 hy1⟩
  have hpipe : FQ.fillna0 (FQ.round2 (FQ.mul100 (FQ.divInt d c))) =
      FQ.val ⟨roundQ (d * 100 * 100) c.natAbs, 100⟩ := by
    unfold FQ.divInt
    rw [if_neg hc.ne.symm]
    unfold mkDiv
    rw [if_pos hc.le]
    rfl
  rw [hpipe]
  have hna : (0 : ℕ) < c.natAbs := by
    rw [Int.natAbs_pos]
    exact hc.ne.symm
  rw [roundQ_eq_round _ _ hna]
  have hcastc : ((c.natAbs : ℕ) : ℚ) = (c : ℚ) := by
    have hn : (c.natAbs : ℤ) = c := Int.natAbs_of_nonneg hc.le
    calc ((c.natAbs : ℕ) : ℚ) = (((c.natAbs : ℕ) : ℤ) : ℚ) :=
        (Int.cast_natCast _).symm
      _ = (c : ℚ) := by rw [hn]
  have harg : ((d * 100 * 100 : ℤ) : ℚ) / ((c.natAbs : ℕ) : ℚ) =
      (d : ℚ) / (c : ℚ) * 100 * 100 := by
    rw [hcastc]
    push_cast
    field_simp
  rw [harg]

theorem rate_side (c : ℤ) (vO : Option ℤ) (dq : ℤ)
    (hdq : FInt.fillna0 (optFI vO) = FInt.val dq)
    (h0 : 0 ≤ dq) (h1 : dq ≤ c) :
    ∃ x, FQ.fillna0 (FQ.round2 (FQ.mul100 (FQ.divFI (optFI vO) c))) = FQ.val x
      ∧ Q.qle (Q.ofInt 0) x ∧ Q.qle x (Q.ofInt 100)
      ∧ (0 < c → x.toRat = (round ((dq : ℚ) / (c : ℚ) * 100 * 100) : ℚ) / 100)
      ∧ (c = 0 → x = Q.ofInt 0) := by
  cases vO with
  | none =>
    have hdq2 : FInt.val 0 = FInt.val dq := hdq
    injection hdq2 with hdq0
    subst hdq0
    refine ⟨Q.ofInt 0, rfl, by decide, by decide, fun hc => ?_, fun _ => rfl⟩
    have hz : ((0 : ℤ) : ℚ) / (c : ℚ) * 100 * 100 = 0 := by
      push_cast
      ring
    rw [hz, round_zero]
    simp [Q.toRat, Q.ofInt]
  | some v =>
    have hdq2 : FInt.val v = FInt.val dq := hdq
    injection hdq2 with hv
    subst hv
    by_cases hc0 : c = 0
    · subst hc0
      have hdq0 : v = 0 := le_antisymm h1 h0
      subst hdq0
      refine ⟨Q.ofInt 0, rfl, by decide, by decide, fun hc => absurd hc (by simp),
        fun _ => rfl⟩
    · have hc : 0 < c := lt_of_le_of_ne (le_trans h0 h1) (fun h => hc0 h.symm)
      obtain ⟨hpipe, hr0, hr1⟩ := rate_spec v c h0 h1 hc
      refine ⟨⟨round ((v : ℚ) / (c : ℚ) * 100 * 100), 100⟩, hpipe, ?_, ?_,
        fun _ => ?_, fun hz => absurd hz hc0⟩
      · simp only [Q.qle, Q.ofInt]
        omega
      · simp only [Q.qle, Q.ofInt]
        omega
      · simp [Q.toRat]

/-! ## Claims -/

/-- C2 counterexample: merging confirmed={(US,d1):10}, deaths={},
recovered={(US,d1):2} yields one record with deaths filled to 0 and
recovered 2, but its active value is 0, not the claimed 8: Active is
computed while the unmatched Deaths slot still holds NaN, and the
resulting NaN is what fillna(0) replaces. -/
theorem C2_counterexample :
    (mergeTables [⟨"US", 1, 10, Q.ofInt 0, Q.ofInt 0⟩] []
        [⟨"US", 1, 2, Q.ofInt 0, Q.ofInt 0⟩]).map
      (fun m => (m.confirmed, m.deaths, m.recovered, m.active)) =
      [(10, FInt.val 0, FInt.val 2, FInt.val 0)]
    ∧ FInt.val (0 : ℤ) ≠ FInt.val 8 := by
  constructor
  · decide
  · decide

/-- C2 (amended): the merge of confirmed={(US,d1):10}, deaths={},
recovered={(US,d1):2} yields exactly one record (US,d1) with
confirmed=10, deaths=0 (missing join filled with 0), recovered=2,
death_rate=0 and recovery_rate=20.00, but active=0 (the NaN produced by
computing active with the unmatched deaths slot is filled with 0), not
8. -/
theorem C2_merge_example :
    get_merged_data
        [("confirmed", [⟨"US", 1, 10, Q.ofInt 0, Q.ofInt 0⟩]),
         ("deaths", []),
         ("recovered", [⟨"US", 1, 2, Q.ofInt 0, Q.ofInt 0⟩])] =
      some [⟨"US", 1, 10, FInt.val 0, FInt.val 2, FInt.val 0,
        FQ.val (Q.ofInt 0), FQ.val ⟨2000, 100⟩, Q.ofInt 0, Q.ofInt 0⟩] := by
  decide

/-- C3 counterexample: a merged record with confirmed = 0 but a matched
deaths value 5 has death_rate = +infinity, not 0: pandas division of a
nonzero numerator by zero yields inf, inf survives .round(2), and
fillna(0) replaces only NaN, so the claim that the rates are defined as
0 whenever confirmed = 0 fails. -/
theorem C3_counterexample :
    (mergeTables [⟨"US", 1, 0, Q.ofInt 0, Q.ofInt 0⟩]
        [⟨"US", 1, 5, Q.ofInt 0, Q.ofInt 0⟩] []).map
      (fun m => (m.confirmed, m.death_rate)) = [((0 : ℤ), FQ.inf)]
    ∧ FQ.inf ≠ FQ.val (Q.ofInt 0) := by
  constructor
  · decide
  · decide

/-- C3 (amended): for every merged record with 0 <= deaths <= confirmed
(resp. recovered), death_rate (resp. recovery_rate) is a finite value in
[0, 100]; whenever confirmed > 0 it equals deaths/confirmed*100 rounded
to 2 decimals, and whenever confirmed = 0 (which forces the numerator to
be 0 under these bounds) it equals 0 without raising.  Without the bound
(confirmed = 0 with a positive matched numerator) the code instead
yields +infinity, which fillna(0) does not replace — see the
counterexample. -/
theorem C3_rate_bounds (cT dT rT : List PRow) (m : MRow)
    (hm : m ∈ mergeTables cT dT rT) (dq rq : ℤ)
    (hdq : m.deaths = FInt.val dq) (hrq : m.recovered = FInt.val rq)
    (hd0 : 0 ≤ dq) (hd1 : dq ≤ m.confirmed)
    (hr0 : 0 ≤ rq) (hr1 : rq ≤ m.confirmed) :
    (∃ x, m.death_rate = FQ.val x
      ∧ Q.qle (Q.ofInt 0) x ∧ Q.qle x (Q.ofInt 100)
      ∧ (0 < m.confirmed →
          x.toRat = (round ((dq : ℚ) / (m.confirmed : ℚ) * 100 * 100) : ℚ) / 100)
      ∧ (m.confirmed = 0 → x = Q.ofInt 0))
    ∧ (∃ y, m.recovery_rate = FQ.val y
      ∧ Q.qle (Q.ofInt 0) y ∧ Q.qle y (Q.ofInt 100)
      ∧ (0 < m.confirmed →
          y.toRat = (round ((rq : ℚ) / (m.confirmed : ℚ) * 100 * 100) : ℚ) / 100)
      ∧ (m.confirmed = 0 → y = Q.ofInt 0)) := by
  obtain ⟨c, hc, dO, hdO, rO, hrO, rfl⟩ := (mem_mergeTables cT dT rT m).mp hm
  exact ⟨rate_side c.cases dO dq hdq hd0 hd1,
    rate_side c.cases rO rq hrq hr0 hr1⟩

/-- C3 witness: with confirmed=10, deaths=3, the death rate is the value
30.00 (fraction 3000/100), within [0, 100], and equals the rounding of
3/10*100 to two decimals. -/
theorem C3_witness :
    ∃ x, FQ.val (⟨3000, 100⟩ : Q) = FQ.val x
      ∧ Q.qle (Q.ofInt 0) x ∧ Q.qle x (Q.ofInt 100)
      ∧ (0 < (10 : ℤ) →
          x.toRat = (round (((3 : ℤ) : ℚ) / (((10 : ℤ)) : ℚ) * 100 * 100) : ℚ) / 100)
      ∧ ((10 : ℤ) = 0 → x = Q.ofInt 0) :=
  (C3_rate_bounds [⟨"US", 1, 10, Q.ofInt 0, Q.ofInt 0⟩]
    [⟨"US", 1, 3, Q.ofInt 0, Q.ofInt 0⟩] [⟨"US", 1, 2, Q.ofInt 0, Q.ofInt 0⟩]
    ⟨"US", 1, 10, FInt.val 3, FInt.val 2, FInt.val 5, FQ.val ⟨3000, 100⟩,
      FQ.val ⟨2000, 100⟩, Q.ofInt 0, Q.ofInt 0⟩
    (by decide) 3 2 rfl rfl (by decide) (by decide) (by decide) (by decide)).1

/-- C4 counterexample: on a chronologically sorted 7-day series, the
7-point moving-average column is still NaN (undefined) at position 6,
because the diff value at position 0 is NaN and rolling(7).mean() with
its default min_periods=7 needs 7 non-NaN values; so the moving average
is not defined from position 6 onward as claimed (its first defined
position is 7). -/
theorem C4_counterexample :
    (calculate_growth_rates
      [⟨0, 0, 0⟩, ⟨1, 1, 0⟩, ⟨2, 3, 0⟩, ⟨3, 6, 0⟩, ⟨4, 10, 0⟩, ⟨5, 15, 0⟩,
       ⟨6, 21, 0⟩]).length = 7
    ∧ ((calculate_growth_rates
      [⟨0, 0, 0⟩, ⟨1, 1, 0⟩, ⟨2, 3, 0⟩, ⟨3, 6, 0⟩, ⟨4, 10, 0⟩, ⟨5, 15, 0⟩,
       ⟨6, 21, 0⟩]).getD 6 default).confirmed_ma7 = FQ.nan
    ∧ FQ.nan ≠ FQ.val ⟨21, 7⟩ := by
  refine ⟨by decide, by decide, by decide⟩

/-- C4 (amended): on a chronologically sorted series of length L,
calculate_growth_rates returns L rows; the daily-delta columns are NaN
at position 0 and equal confirmed[i]-confirmed[i-1] (resp. deaths) at
every position i with 1 <= i < L; the 7-point trailing moving-average
columns are NaN at positions 0..6 (not just 0..5: the NaN diff at
position 0 also poisons the window ending at position 6) and from
position 7 onward hold the arithmetic mean of the trailing 7 daily
values, represented as the exact fraction (sum of the 7 daily deltas)/7. -/
theorem C4_derive_growth (input : List TRow) (hs : List.Sorted tdateLe input) :
    (calculate_growth_rates input).length = input.length
    ∧ (0 < input.length →
        ((calculate_growth_rates input).getD 0 default).daily_confirmed = FInt.nan
        ∧ ((calculate_growth_rates input).getD 0 default).daily_deaths = FInt.nan)
    ∧ (∀ i, 1 ≤ i → i < input.length →
        ((calculate_growth_rates input).getD i default).daily_confirmed =
          FInt.val ((input.getD i default).confirmed -
            (input.getD (i - 1) default).confirmed)
        ∧ ((calculate_growth_rates input).getD i default).daily_deaths =
          FInt.val ((input.getD i default).deaths -
            (input.getD (i - 1) default).deaths))
    ∧ (∀ i, i < input.length → i ≤ 6 →
        ((calculate_growth_rates input).getD i default).confirmed_ma7 = FQ.nan
        ∧ ((calculate_growth_rates input).getD i default).deaths_ma7 = FQ.nan)
    ∧ (∀ i, 7 ≤ i → i < input.length →
        ((calculate_growth_rates input).getD i default).confirmed_ma7 =
          FQ.val ⟨((List.range 7).map fun k =>
            (input.getD (i - 6 + k) default).confirmed -
              (input.getD (i - 7 + k) default).confirmed).sum, 7⟩
        ∧ ((calculate_growth_rates input).getD i default).deaths_ma7 =
          FQ.val ⟨((List.range 7).map fun k =>
            (input.getD (i - 6 + k) default).deaths -
              (input.getD (i - 7 + k) default).deaths).sum, 7⟩) := by
  have hsort : input.insertionSort tdateLe = input := hs.insertionSort_eq
  have hout : calculate_growth_rates input =
      (List.range input.length).map fun i =>
        ({ date := (input.getD i default).date
           confirmed := (input.map (fun r => r.confirmed)).getD i 0
           deaths := (input.map (fun r => r.deaths)).getD i 0
           daily_confirmed := diffAt (input.map (fun r => r.confirmed)) i
           daily_deaths := diffAt (input.map (fun r => r.deaths)) i
           confirmed_growth_rate := pctAt (input.map (fun r => r.confirmed)) i
           death_growth_rate := pctAt (input.map (fun r => r.deaths)) i
           confirmed_ma7 := ma7At (input.map (fun r => r.confirmed)) i
           deaths_ma7 := ma7At (input.map (fun r => r.deaths)) i } : GRow) := by
    unfold calculate_growth_rates
    rw [hsort]
    rfl
  refine ⟨?_, ?_, ?_, ?_, ?_⟩
  · rw [hout]; simp
  · intro h0
    rw [hout, getD_range_map _ _ _ _ h0]
    exact ⟨rfl, rfl⟩
  · intro i h1 h2
    rw [hout, getD_range_map _ _ _ _ h2]
    constructor
    · show diffAt (input.map (fun r => r.confirmed)) i = _
      rw [diffAt_of_pos _ _ h1, getD_map_getD _ _ _ _ h2,
        getD_map_getD _ _ _ _ (by omega)]
    · show diffAt (input.map (fun r => r.deaths)) i = _
      rw [diffAt_of_pos _ _ h1, getD_map_getD _ _ _ _ h2,
        getD_map_getD _ _ _ _ (by omega)]
  · intro i h2 h6
    rw [hout, getD_range_map _ _ _ _ h2]
    exact ⟨ma7At_of_le_six _ _ h6, ma7At_of_le_six _ _ h6⟩
  · intro i h7 h2
    rw [hout, getD_range_map _ _ _ _ h2]
    constructor
    · show ma7At (input.map (fun r => r.confirmed)) i = _
      rw [ma7At_of_seven_le _ _ h7]
      have hA : ((List.range 7).map fun k =>
          (input.map (fun r => r.confirmed)).getD (i - 6 + k) 0 -
            (input.map (fun r => r.confirmed)).getD (i - 7 + k) 0) =
          (List.range 7).map fun k =>
            (input.getD (i - 6 + k) default).confirmed -
              (input.getD (i - 7 + k) default).confirmed := by
        refine List.map_congr_left fun k hk => ?_
        have hk7 : k < 7 := List.mem_range.mp hk
        rw [getD_map_getD _ _ _ _ (by omega), getD_map_getD _ _ _ _ (by omega)]
      rw [hA]
    · show ma7At (input.map (fun r => r.deaths)) i = _
      rw [ma7At_of_seven_le _ _ h7]
      have hA : ((List.range 7).map fun k =>
          (input.map (fun r => r.deaths)).getD (i - 6 + k) 0 -
            (input.map (fun r => r.deaths)).getD (i - 7 + k) 0) =
          (List.range 7).map fun k =>
            (input.getD (i - 6 + k) default).deaths -
              (input.getD (i - 7 + k) default).deaths := by
        refine List.map_congr_left fun k hk => ?_
        have hk7 : k < 7 := List.mem_range.mp hk
        rw [getD_map_getD _ _ _ _ (by omega), getD_map_getD _ _ _ _ (by omega)]
      rw [hA]

/-- C4 witness: on the example 8-day sorted series with daily deltas
1..7, the moving average at position 7 is defined and equals
(1+2+3+4+5+6+7)/7 = 28/7 = 4. -/
theorem C4_witness :
    ((calculate_growth_rates exSeries).getD 7 default).confirmed_ma7 =
      FQ.val ⟨28, 7⟩ := by
  have h := (C4_derive_growth exSeries (by decide)).2.2.2.2 7 (by decide) (by decide)
  exact h.1.trans (by decide)

/-- C5: reshaping conserves the per-date total: for every raw
wide-format table with distinct date columns and every date column j,
the sum over all countries of the reshaped country-level value at that
date equals the sum of all raw sub-location values in column j; and
every reshaped row takes its latitude and longitude from the first raw
row of its country (find? returns the first match). -/
theorem C5_reshape_conservation (t : RawTable) (j : Nat)
    (hnd : t.dates.Nodup) (hj : j < t.dates.length) :
    (((preprocess t).filter fun p => p.date = t.dates.getD j 0).map
      (fun p => p.cases)).sum = (t.rows.map fun r => r.cases.getD j 0).sum
    ∧ ∀ p ∈ preprocess t, ∃ r,
        t.rows.find? (fun row => row.country = p.country) = some r
        ∧ p.lat = r.lat ∧ p.long = r.long := by
  refine ⟨?_, preprocess_coords t hnd⟩
  have h1 : preprocess t = (List.insertionSort keyLe
      (((melt t).map fun m => (m.country, m.date)).dedup)).map
      (buildPRow (melt t)) := rfl
  rw [h1, conservation_core (melt t) _ (List.perm_insertionSort _ _)
    (t.dates.getD j 0)]
  rw [show melt t = meltAux t.rows t.dates 0 from rfl,
    meltAux_filter_date t.rows t.dates 0 j hnd hj, List.map_map]
  have hcomp : ((fun m : MeltRow => m.cases) ∘ fun r : RawRow =>
      (⟨r.province, r.country, r.lat, r.long, t.dates.getD j 0,
        r.cases.getD (0 + j) 0⟩ : MeltRow)) =
      fun r : RawRow => r.cases.getD (0 + j) 0 := rfl
  rw [hcomp]
  simp only [Nat.zero_add]

/-- C5 witness: on a concrete table with two US sub-locations (3 and 10
at the first date) and one FR row (100), the reshaped per-country values
at the first date sum to 113, the raw column total. -/
theorem C5_witness :
    (((preprocess ⟨[10, 11],
        [⟨"P1", "US", Q.ofInt 1, Q.ofInt 2, [3, 4]⟩,
         ⟨"P2", "US", Q.ofInt 5, Q.ofInt 6, [10, 20]⟩,
         ⟨"", "FR", Q.ofInt 7, Q.ofInt 8, [100, 200]⟩]⟩).filter
      fun p => p.date = (⟨[10, 11],
        [⟨"P1", "US", Q.ofInt 1, Q.ofInt 2, [3, 4]⟩,
         ⟨"P2", "US", Q.ofInt 5, Q.ofInt 6, [10, 20]⟩,
         ⟨"", "FR", Q.ofInt 7, Q.ofInt 8, [100, 200]⟩]⟩ : RawTable).dates.getD 0 0).map
      (fun p => p.cases)).sum =
    ((⟨[10, 11],
        [⟨"P1", "US", Q.ofInt 1, Q.ofInt 2, [3, 4]⟩,
         ⟨"P2", "US", Q.ofInt 5, Q.ofInt 6, [10, 20]⟩,
         ⟨"", "FR", Q.ofInt 7, Q.ofInt 8, [100, 200]⟩]⟩ : RawTable).rows.map
      fun r => r.cases.getD 0 0).sum :=
  (C5_reshape_conservation _ 0 (by decide) (by decide)).1

/-- C6: the (country, date) keys of the merged table are exactly the
(country, date) keys of the confirmed input: every confirmed row yields
at least one merged row, and keys present only in deaths or recovered
are dropped. -/
theorem C6_merge_keys (cT dT rT : List PRow) (k : String × Nat) :
    k ∈ (mergeTables cT dT rT).map (fun m => (m.country, m.date)) ↔
      k ∈ cT.map (fun c => (c.country, c.date)) := by
  simp only [List.mem_map]
  constructor
  · rintro ⟨m, hm, rfl⟩
    obtain ⟨c, hc, dO, _, rO, _, rfl⟩ := (mem_mergeTables cT dT rT m).mp hm
    exact ⟨c, hc, rfl⟩
  · rintro ⟨c, hc, rfl⟩
    obtain ⟨dO, hdO⟩ := exists_mem_leftJoinVals dT c.country c.date
    obtain ⟨rO, hrO⟩ := exists_mem_leftJoinVals rT c.country c.date
    exact ⟨fillRow (buildRow c dO rO),
      (mem_mergeTables cT dT rT _).mpr ⟨c, hc, dO, hdO, rO, hrO, rfl⟩, rfl⟩

/-- C7: on the example dataset (A=1000, B=500, C=2000, D=300, E=100,
F=50 at the latest date 2), the top-5 query with no explicit date
returns exactly C, A, B, D, E in descending order of confirmed; and with
no explicit date the maximum date present in the dataset is always the
one used. -/
theorem C7_top_by_confirmed :
    get_top_countries_by_cases exTop 5 none =
      [topOf "C" 2000, topOf "A" 1000, topOf "B" 500, topOf "D" 300,
        topOf "E" 100]
    ∧ ∀ (data : List MRow) (n : Nat),
        get_top_countries_by_cases data n none =
          get_top_countries_by_cases data n (some (maxDate data)) := by
  constructor
  · decide
  · intro data n; rfl

/-- C8: the country time-series query returns exactly the rows of the
requested country, sorted ascending by date, and returns the empty list
(rather than failing) when no row has that country. -/
theorem C8_country_time_series (data : List MRow) (name : String) :
    List.Sorted dateLe (get_country_time_series data name)
    ∧ (∀ m, m ∈ get_country_time_series data name ↔
        m ∈ data ∧ m.country = name)
    ∧ ((∀ m ∈ data, m.country ≠ name) →
        get_country_time_series data name = []) := by
  refine ⟨List.sorted_insertionSort dateLe _, fun m => ?_, fun h => ?_⟩
  · simp [get_country_time_series, List.mem_filter]
  · unfold get_country_time_series
    rw [List.filter_eq_nil_iff.mpr (by simpa using h)]
    rfl

/-- C8 witness: a country absent from the example dataset yields the
empty result. -/
theorem C8_witness : get_country_time_series exTop "Narnia" = [] :=
  (C8_country_time_series exTop "Narnia").2.2 (by decide)

set_option maxRecDepth 4000 in
/-- C9 counterexample: with a data directory holding confirmed and
recovered files but no deaths file, load_data returns the two present
metrics without raising, but get_merged_data on the preprocessed partial
dict raises KeyError (modelled as none) instead of proceeding on the
remaining metrics. -/
theorem C9_counterexample :
    (load_data exDirNoDeaths).map Prod.fst = ["confirmed", "recovered"]
    ∧ get_merged_data (preprocess_data (load_data exDirNoDeaths)) = none := by
  constructor
  · decide
  · decide

/-- C9 (amended): when the deaths file is absent, load_data omits the
deaths metric from the returned dict without raising, and
preprocess_data processes whatever metrics are present (keys preserved);
but get_merged_data requires all three of confirmed, deaths and
recovered and raises KeyError (modelled as none) on a dict missing any
of them, rather than proceeding on partial data. -/
theorem C9_partial_data (dir : List (String × RawTable))
    (h : ∀ f ∈ dir,
      ¬ (("deaths" ++ "_time_series").data.isPrefixOf f.1.data = true)) :
    dictGet (load_data dir) "deaths" = none
    ∧ (∀ d : List (String × RawTable),
        (preprocess_data d).map Prod.fst = d.map Prod.fst)
    ∧ (∀ pd : List (String × List PRow),
        dictGet pd "deaths" = none → get_merged_data pd = none) := by
  refine ⟨?_, ?_, ?_⟩
  · have hnone : dir.find?
        (fun f => ("deaths" ++ "_time_series").data.isPrefixOf f.1.data) = none :=
      List.find?_eq_none.mpr h
    have hmem : ∀ p ∈ load_data dir, p.1 ≠ "deaths" := by
      intro p hp
      simp only [load_data, List.mem_filterMap] at hp
      obtain ⟨m, hmM, hf⟩ := hp
      rcases hfind : dir.find?
          (fun f => (m ++ "_time_series").data.isPrefixOf f.1.data) with _ | f0
      · rw [hfind] at hf; cases hf
      · rw [hfind] at hf
        cases hf
        intro hKey
        have hm2 : m = "deaths" := hKey
        rw [hm2, hnone] at hfind
        cases hfind
    rcases hres : (load_data dir).find? (fun p => p.1 = "deaths") with _ | p
    · simp [dictGet, hres]
    · have h1 := List.find?_some hres
      have h2 := List.mem_of_find?_eq_some hres
      simp only [decide_eq_true_eq] at h1
      exact absurd h1 (hmem p h2)
  · intro d
    simp [preprocess_data]
  · intro pd hnone
    unfold get_merged_data
    rw [hnone]
    cases dictGet pd "confirmed" <;> cases dictGet pd "recovered" <;> rfl

set_option maxRecDepth 4000 in
/-- C9 witness: with the example directory missing the deaths file, the
loaded dict has no deaths entry. -/
theorem C9_witness : dictGet (load_data exDirNoDeaths) "deaths" = none :=
  (C9_partial_data exDirNoDeaths (by decide)).1

/-- C10: calculate_growth_rates does not mutate the frame the caller
passed: sort_values allocates a fresh object, the local name is rebound
to it, and the column assignments mutate only that fresh object.  The
heap slot of the input is unchanged, the returned reference is a new
one, and it holds the derived view of the input rows. -/
theorem C10_growth_frame (s : Store) (r : Nat) (h : r < s.length) :
    ((calculate_growth_rates_st s r).1).getD r (DFrame.base []) =
      s.getD r (DFrame.base [])
    ∧ (calculate_growth_rates_st s r).2 ≠ r
    ∧ ((calculate_growth_rates_st s r).1).getD
        ((calculate_growth_rates_st s r).2) (DFrame.base []) =
      DFrame.derived
        (calculate_growth_rates ((s.getD r (DFrame.base [])).coreRows)) := by
  have h2 : (calculate_growth_rates_st s r).2 = s.length := rfl
  have h1 : (calculate_growth_rates_st s r).1 =
      List.set
        (s ++ [DFrame.base (List.insertionSort tdateLe
          ((s.getD r (DFrame.base [])).coreRows))])
        s.length
        (DFrame.derived (calcGrowthSorted (List.insertionSort tdateLe
          ((s.getD r (DFrame.base [])).coreRows)))) := rfl
  refine ⟨?_, by rw [h2]; omega, ?_⟩
  · rw [h1]
    simp only [List.getD_eq_getElem?_getD]
    rw [List.getElem?_set_ne (by omega), List.getElem?_append_left h]
  · rw [h1, h2]
    simp only [List.getD_eq_getElem?_getD]
    rw [List.getElem?_set_self (by simp)]
    rfl

/-- C1 counterexample: a confirmed row (FR, d3, 7) whose deaths join
matches (value 1) but whose recovered join is unmatched produces a
merged record with deaths=1, recovered=0 (filled), but active=0 rather
than 7 - 1 - 0 = 6: Active is computed before fillna, so the NaN from
the unmatched recovered slot propagates into Active and is then filled
with 0. -/
theorem C1_counterexample :
    (mergeTables [⟨"FR", 3, 7, Q.ofInt 0, Q.ofInt 0⟩]
        [⟨"FR", 3, 1, Q.ofInt 0, Q.ofInt 0⟩] []).map
      (fun m => (m.confirmed, m.deaths, m.recovered, m.active)) =
      [(7, FInt.val 1, FInt.val 0, FInt.val 0)]
    ∧ FInt.val (0 : ℤ) ≠ FInt.val ((7 : ℤ) - 1 - 0) := by
  constructor
  · decide
  · decide

/-- C1 (amended): for every merged record whose (country, date) key has
a match in both the deaths and the recovered table, active = confirmed -
deaths - recovered holds exactly (and may be negative, uncorrected);
for a record with a missing deaths or recovered join, active is 0 (the
NaN produced by arithmetic with the unmatched slot is what fillna(0)
replaces), which need not equal confirmed - deaths - recovered. -/
theorem C1_active_invariant (cT dT rT : List PRow) (m : MRow)
    (hm : m ∈ mergeTables cT dT rT) :
    (hasKey dT m.country m.date = true → hasKey rT m.country m.date = true →
      ∃ dq rq, m.deaths = FInt.val dq ∧ m.recovered = FInt.val rq ∧
        m.active = FInt.val (m.confirmed - dq - rq))
    ∧ ((hasKey dT m.country m.date = false ∨
        hasKey rT m.country m.date = false) →
        m.active = FInt.val 0) := by
  obtain ⟨c, hc, dO, hdO, rO, hrO, rfl⟩ := (mem_mergeTables cT dT rT m).mp hm
  have hdIff := mem_leftJoinVals_some_iff dT c.country c.date dO hdO
  have hrIff := mem_leftJoinVals_some_iff rT c.country c.date rO hrO
  cases dO with
  | some d =>
    cases rO with
    | some r =>
      refine ⟨fun _ _ => ⟨d, r, rfl, rfl, rfl⟩, fun hf => ?_⟩
      rcases hf with hf | hf
      · have hf' : hasKey dT c.country c.date = false := hf
        rw [hdIff.mp ⟨d, rfl⟩] at hf'
        cases hf'
      · have hf' : hasKey rT c.country c.date = false := hf
        rw [hrIff.mp ⟨r, rfl⟩] at hf'
        cases hf'
    | none =>
      refine ⟨fun _ hrT => ?_, fun _ => rfl⟩
      obtain ⟨v, hv⟩ := hrIff.mpr hrT
      cases hv
  | none =>
    refine ⟨fun hdT _ => ?_, fun _ => ?_⟩
    · obtain ⟨v, hv⟩ := hdIff.mpr hdT
      cases hv
    · cases rO <;> rfl

/-- C1 witness: with both joins matched (confirmed=10, deaths=3,
recovered=2), active equals confirmed - deaths - recovered = 5. -/
theorem C1_witness :
    ∃ dq rq : ℤ, FInt.val 3 = FInt.val dq ∧ FInt.val 2 = FInt.val rq ∧
      FInt.val 5 = FInt.val ((10 : ℤ) - dq - rq) :=
  (C1_active_invariant [⟨"US", 1, 10, Q.ofInt 0, Q.ofInt 0⟩]
    [⟨"US", 1, 3, Q.ofInt 0, Q.ofInt 0⟩] [⟨"US", 1, 2, Q.ofInt 0, Q.ofInt 0⟩]
    ⟨"US", 1, 10, FInt.val 3, FInt.val 2, FInt.val 5, FQ.val ⟨3000, 100⟩,
      FQ.val ⟨2000, 100⟩, Q.ofInt 0, Q.ofInt 0⟩
    (by decide)).1 (by decide) (by decide)

/-- C10 witness: on a one-frame heap, the frame passed by the caller is
unchanged by the call. -/
theorem C10_witness :
    ((calculate_growth_rates_st [DFrame.base exSeries] 0).1).getD 0
        (DFrame.base []) =
      [DFrame.base exSeries].getD 0 (DFrame.base []) :=
  (C10_growth_frame [DFrame.base exSeries] 0 (by decide)).1
